import Mathlib

/-!
Verification of the test-attempt engine of the jeetest backend.

The definitions below are a shallow embedding of `src/controllers/attemptController.js`
and the relational schema in `prisma/migrations`.  The persistent store is a `DB`
value (lists of tests, attempts and answer rows); every HTTP handler becomes a
pure function from a `DB` and its request parameters to a result and a new `DB`.
Timestamps are abstract `Nat` clock values passed in as `now`.
-/

namespace JeeTest

/-- Answer status, from the Prisma enum `AnswerStatus`. -/
inductive AnswerStatus
  | NOT_VISITED
  | NOT_ANSWERED
  | ANSWERED
  | MARKED_FOR_REVIEW
deriving DecidableEq

/-- Question type, from the Prisma enum `QuestionType`. -/
inductive QuestionType
  | MCQ
  | INTEGER
deriving DecidableEq

/-- A row of the `questions` table.  `correctOption` and `correctInteger` are both
nullable; the schema places no exclusivity constraint between them. -/
structure Question where
  id : Nat
  questionNumber : Nat
  correctOption : Option String
  correctInteger : Option Int
  marks : Int
  negativeMarks : Int
deriving DecidableEq

/-- A row of the `sections` table together with its owned questions. -/
structure Section where
  id : Nat
  questionType : QuestionType
  order : Nat
  questions : List Question
deriving DecidableEq

/-- A row of the `tests` table together with its owned sections. -/
structure Test where
  id : Nat
  isLive : Bool
  sections : List Section
deriving DecidableEq

/-- A row of the `test_attempts` table. -/
structure TestAttempt where
  id : Nat
  testId : Nat
  candidateName : String
  candidateImage : Option String
  startTime : Nat
  endTime : Option Nat
  totalMarks : Int
  isCompleted : Bool
  warningCount : Nat
  needsResume : Bool
  canResume : Bool
  resumeRequestedAt : Option Nat
deriving DecidableEq

/-- A row of the `answers` table.  The table has a unique index on
`(attemptId, questionId)`. -/
structure Answer where
  attemptId : Nat
  questionId : Nat
  selectedOption : Option String
  integerAnswer : Option Int
  status : AnswerStatus
  isCorrect : Option Bool
  marksAwarded : Int
  timeSpent : Int
  visitCount : Nat
  firstVisitTime : Option Nat
  lastVisitTime : Option Nat
deriving DecidableEq

/-- The persistent store visible to the attempt controller. -/
structure DB where
  tests : List Test
  attempts : List TestAttempt
  answers : List Answer
deriving DecidableEq

/-- One element of the `answers` array of a submit or sync request body.
`integerAnswer` is modelled as the parsed integer (the controller applies
`parseInt` with an emptiness guard before persisting). -/
structure SubmittedAnswer where
  questionId : Nat
  selectedOption : Option String
  integerAnswer : Option Int
  status : AnswerStatus
deriving DecidableEq

/-- JS truthiness of a nullable string field: `null`, `undefined` and `''` are
falsy, every other string is truthy. -/
def truthyStr : Option String → Bool
  | none => false
  | some s => s != ""

/-- Scoring of one submitted answer against its question, translated from the
marks-calculation loop of `submitTest` (attemptController.js lines 172-189).
Returns the pair `(isCorrect, marksAwarded)`. -/
def scoreAnswer (question : Question) (answer : SubmittedAnswer) : Option Bool × Int :=
  if answer.status = .ANSWERED ∨ answer.status = .MARKED_FOR_REVIEW then
    if truthyStr question.correctOption = true ∧ answer.selectedOption = question.correctOption then
      (some true, question.marks)
    else if question.correctInteger.isSome = true ∧ answer.integerAnswer = question.correctInteger then
      (some true, question.marks)
    else if truthyStr answer.selectedOption = true ∨ answer.integerAnswer.isSome = true then
      (some false, question.negativeMarks)
    else
      (none, 0)
  else
    (none, 0)

/-- Case (a) of claim C1, in the claim's own words: non-empty `correctOption`
with `selectedOption` strictly equal to it. -/
def mcqMatchC1 (question : Question) (answer : SubmittedAnswer) : Bool :=
  match question.correctOption with
  | some s => s != "" && answer.selectedOption == some s
  | none => false

/-- Case (b) of claim C1, in the claim's own words: non-null `correctInteger`
with `integerAnswer` strictly equal to it. -/
def intMatchC1 (question : Question) (answer : SubmittedAnswer) : Bool :=
  match question.correctInteger with
  | some n => answer.integerAnswer == some n
  | none => false

/-- Case (c) guard of claim C1, in the claim's own words: a supplied value is a
non-empty `selectedOption` or a non-null `integerAnswer`. -/
def suppliedValueC1 (answer : SubmittedAnswer) : Bool :=
  (match answer.selectedOption with
   | some s => s != ""
   | none => false) || answer.integerAnswer.isSome

/-- Modelled from claim C1's wording (not from the source): the four-outcome
scoring contract, evaluated in the claimed order. -/
def scoreSpecC1 (question : Question) (answer : SubmittedAnswer) : Option Bool × Int :=
  if answer.status ≠ .ANSWERED ∧ answer.status ≠ .MARKED_FOR_REVIEW then
    (none, 0)
  else if mcqMatchC1 question answer = true then
    (some true, question.marks)
  else if intMatchC1 question answer = true then
    (some true, question.marks)
  else if suppliedValueC1 answer = true then
    (some false, question.negativeMarks)
  else
    (none, 0)

/-- Predicate selecting the answer row with the unique key
`(attemptId, questionId)`. -/
def rowKey (attemptId questionId : Nat) (r : Answer) : Bool :=
  r.attemptId == attemptId && r.questionId == questionId

/-- All questions of a test, in section order:
`test.sections.flatMap(s => s.questions)`. -/
def Test.allQuestions (t : Test) : List Question :=
  t.sections.flatMap (fun s => s.questions)

/-- A record of the `updatedAnswers` array built by `submitTest`. -/
structure ScoredAnswer where
  questionId : Nat
  selectedOption : Option String
  integerAnswer : Option Int
  status : AnswerStatus
  isCorrect : Option Bool
  marksAwarded : Int
deriving DecidableEq

/-- The `updatedAnswers` list `submitTest` builds from the request body:
entries whose `questionId` is not a question of the test are skipped
(`if (!question) continue`); the rest carry the submitted fields plus the
computed `isCorrect` and `marksAwarded`. -/
def buildScored (t : Test) (payload : List SubmittedAnswer) : List ScoredAnswer :=
  payload.filterMap (fun a =>
    match t.allQuestions.find? (fun q => q.id == a.questionId) with
    | none => none
    | some q =>
      let r := scoreAnswer q a
      some { questionId := a.questionId, selectedOption := a.selectedOption,
             integerAnswer := a.integerAnswer, status := a.status,
             isCorrect := r.1, marksAwarded := r.2 })

/-- Overwrite one answer row with the scored values of `submitTest`. -/
def scoredUpd (u : ScoredAnswer) (r : Answer) : Answer :=
  { r with selectedOption := u.selectedOption, integerAnswer := u.integerAnswer,
           status := u.status, isCorrect := u.isCorrect, marksAwarded := u.marksAwarded }

/-- Effect of one scored update on one row: rows with a different key are left
alone. -/
def rowStep (attemptId : Nat) (r : Answer) (u : ScoredAnswer) : Answer :=
  if rowKey attemptId u.questionId r then scoredUpd u r else r

/-- One `prisma.answer.update` of `submitTest`: overwrite the row keyed
`(attemptId, u.questionId)` with the scored values; a missing row is left as is
(the corresponding promise rejects instead). -/
def applyScored (attemptId : Nat) (answers : List Answer) (u : ScoredAnswer) : List Answer :=
  answers.map (fun r => rowStep attemptId r u)

/-- Result of `submitTest` as seen by the HTTP caller. -/
inductive SubmitResult
  | attemptNotFound
  | testMissing
  | updateFailed
  | ok
deriving DecidableEq

/-- The `totalMarks` accumulator of `submitTest`: sum of the computed
`marksAwarded` over the scored records. -/
def totalOf (scored : List ScoredAnswer) : Int :=
  (scored.map (fun u => u.marksAwarded)).sum

/-- Check that every scored record has its backing answer row, i.e. that no
`prisma.answer.update` of the write-back rejects. -/
def scoredAllExist (db : DB) (attemptId : Nat) (scored : List ScoredAnswer) : Bool :=
  scored.all (fun u => db.answers.any (rowKey attemptId u.questionId))

/-- The store after a fully successful submit: scored answer values written,
attempt completed with `totalMarks` and `endTime`, owning test taken off
live. -/
def submitSuccessDB (db : DB) (attemptId testId : Nat) (scored : List ScoredAnswer)
    (now : Nat) : DB :=
  { tests := db.tests.map (fun t =>
      if t.id == testId then { t with isLive := false } else t),
    attempts := db.attempts.map (fun a =>
      if a.id == attemptId then
        { a with isCompleted := true, totalMarks := totalOf scored, endTime := some now }
      else a),
    answers := scored.foldl (applyScored attemptId) db.answers }

/-- Translation of `submitTest` (attemptController.js lines 132-261).  The
answer write-back is a `Promise.all` of independent `prisma.answer.update`
calls, not a transaction: every update whose row exists commits even when a
sibling update rejects, and the completion update of the attempt plus the
`isLive=false` update of the test run only when every answer update succeeded.
A rejected update (missing row) surfaces as `updateFailed` (an HTTP 500). -/
def submitTest (db : DB) (attemptId : Nat) (payload : List SubmittedAnswer) (now : Nat) :
    SubmitResult × DB :=
  match db.attempts.find? (fun a => a.id == attemptId) with
  | none => (.attemptNotFound, db)
  | some att =>
    match db.tests.find? (fun t => t.id == att.testId) with
    | none => (.testMissing, db)
    | some test =>
      if scoredAllExist db attemptId (buildScored test payload) then
        (.ok, submitSuccessDB db attemptId att.testId (buildScored test payload) now)
      else
        (.updateFailed,
         { db with answers := (buildScored test payload).foldl (applyScored attemptId) db.answers })

/-- Result of `updateWarningCount` as seen by the HTTP caller. -/
inductive WarnResult
  | attemptNotFound
  | warned (warningCount : Nat)
  | submitted (r : SubmitResult)
deriving DecidableEq

/-- Shape in which `updateWarningCount` passes the stored rows of an attempt as
the `answers` array of a forced submit: `submitTest` reads exactly the
`questionId`, `selectedOption`, `integerAnswer` and `status` fields of each. -/
def Answer.toSubmitted (r : Answer) : SubmittedAnswer :=
  { questionId := r.questionId, selectedOption := r.selectedOption,
    integerAnswer := r.integerAnswer, status := r.status }

/-- The store after the atomic `warningCount` increment of
`updateWarningCount`. -/
def bumpWarning (db : DB) (attemptId : Nat) : DB :=
  { db with attempts := db.attempts.map (fun a =>
      if a.id == attemptId then { a with warningCount := a.warningCount + 1 } else a) }

/-- The submission payload `updateWarningCount` builds for the forced submit:
the attempt's currently persisted answer rows. -/
def attemptRowsPayload (db : DB) (attemptId : Nat) : List SubmittedAnswer :=
  (db.answers.filter (fun r => r.attemptId == attemptId)).map Answer.toSubmitted

/-- Translation of `updateWarningCount` (attemptController.js lines 264-293):
increment `warningCount`; when the post-increment count is at least 5, fetch
the attempt's current answer rows and call `submitTest` with them. -/
def updateWarningCount (db : DB) (attemptId : Nat) (now : Nat) : WarnResult × DB :=
  match db.attempts.find? (fun a => a.id == attemptId) with
  | none => (.attemptNotFound, db)
  | some att =>
    if att.warningCount + 1 ≥ 5 then
      let r := submitTest (bumpWarning db attemptId) attemptId
        (attemptRowsPayload (bumpWarning db attemptId) attemptId) now
      (.submitted r.1, r.2)
    else
      (.warned (att.warningCount + 1), bumpWarning db attemptId)

/-- Result of `startTestAttempt` as seen by the HTTP caller. -/
inductive StartResult
  | notFound
  | testNotLive
  | alreadyCompleted
  | resumeRequired (attemptId : Nat)
  | created (attemptId : Nat)
deriving DecidableEq

/-- A fresh answer row as materialized at attempt creation
(`status: NOT_VISITED`, every other mutable column at its schema default). -/
def freshAnswer (attemptId questionId : Nat) : Answer :=
  { attemptId := attemptId, questionId := questionId, selectedOption := none,
    integerAnswer := none, status := .NOT_VISITED, isCorrect := none,
    marksAwarded := 0, timeSpent := 0, visitCount := 0,
    firstVisitTime := none, lastVisitTime := none }

/-- The fresh `TestAttempt` row created by `startTestAttempt`, with schema
defaults for every column the controller does not set. -/
def createdAttempt (testId : Nat) (candidateName : String) (candidateImage : Option String)
    (newId now : Nat) : TestAttempt :=
  { id := newId, testId := testId, candidateName := candidateName,
    candidateImage := candidateImage, startTime := now, endTime := none,
    totalMarks := 0, isCompleted := false, warningCount := 0,
    needsResume := false, canResume := false, resumeRequestedAt := none }

/-- Predicate of the `findFirst` lookup of `startTestAttempt`: the attempts of
one `(testId, candidateName)` pair. -/
def pairMatch (testId : Nat) (candidateName : String) (a : TestAttempt) : Bool :=
  a.testId == testId && a.candidateName == candidateName

/-- Translation of `startTestAttempt` (attemptController.js lines 5-98).
`newId` is the id the store assigns to the created attempt; deleting a stale
attempt cascades to its answer rows (`ON DELETE CASCADE`). -/
def startTestAttempt (db : DB) (testId : Nat) (candidateName : String)
    (candidateImage : Option String) (newId now : Nat) : StartResult × DB :=
  match db.tests.find? (fun t => t.id == testId) with
  | none => (.notFound, db)
  | some test =>
    if test.isLive = false then (.testNotLive, db)
    else
      match db.attempts.find? (pairMatch testId candidateName) with
      | none =>
        (.created newId,
         { db with
             attempts := db.attempts ++ [createdAttempt testId candidateName candidateImage newId now],
             answers := db.answers ++ test.allQuestions.map (fun q => freshAnswer newId q.id) })
      | some ex =>
        if ex.isCompleted then (.alreadyCompleted, db)
        else if ex.needsResume && !ex.canResume then (.resumeRequired ex.id, db)
        else
          (.created newId,
           { db with
               attempts := (db.attempts.filter (fun a => a.id != ex.id))
                 ++ [createdAttempt testId candidateName candidateImage newId now],
               answers := (db.answers.filter (fun r => r.attemptId != ex.id))
                 ++ test.allQuestions.map (fun q => freshAnswer newId q.id) })

/-- Result of `syncAnswers` as seen by the HTTP caller. -/
inductive SyncResult
  | ok (synced : Nat)
  | failed
deriving DecidableEq

/-- One `prisma.answer.update` of `syncAnswers`: overwrite the submitted fields
of the row keyed `(attemptId, e.questionId)`; a missing row is left as is (the
corresponding promise rejects instead). -/
def applySyncEntry (attemptId : Nat) (answers : List Answer) (e : SubmittedAnswer) : List Answer :=
  answers.map (fun r =>
    if rowKey attemptId e.questionId r then
      { r with selectedOption := e.selectedOption, integerAnswer := e.integerAnswer,
               status := e.status }
    else r)

/-- Translation of `syncAnswers` (attemptController.js lines 101-129).  The
batch is a `Promise.all` of independent updates: every entry whose row exists
commits; a missing row makes the response an HTTP 500 (`failed`) without
rolling anything back. -/
def syncAnswers (db : DB) (attemptId : Nat) (payload : List SubmittedAnswer) : SyncResult × DB :=
  ((if payload.all (fun e => db.answers.any (rowKey attemptId e.questionId)) then
      .ok payload.length
    else .failed),
   { db with answers := payload.foldl (applySyncEntry attemptId) db.answers })

/-- Result of `updateQuestionTime` as seen by the HTTP caller. -/
inductive TimeResult
  | invalidData
  | answerNotFound
  | ok (timeSpent : Int) (visitCount : Nat)
deriving DecidableEq

/-- Translation of `updateQuestionTime` (attemptController.js lines 911-971):
validate `timeSpent >= 0`, add it to the row's cumulative `timeSpent`, stamp
`lastVisitTime`; on the first visit set `firstVisitTime` and `visitCount = 1`,
otherwise increment `visitCount` only when `action === "visit"`. -/
def updateQuestionTime (db : DB) (attemptId questionId : Nat) (timeSpent : Int)
    (action : String) (now : Nat) : TimeResult × DB :=
  if timeSpent < 0 then (.invalidData, db)
  else
    match db.answers.find? (rowKey attemptId questionId) with
    | none => (.answerNotFound, db)
    | some answer =>
      let newRow : Answer :=
        if answer.firstVisitTime = none then
          { answer with timeSpent := answer.timeSpent + timeSpent, lastVisitTime := some now,
                        firstVisitTime := some now, visitCount := 1 }
        else if action = "visit" then
          { answer with timeSpent := answer.timeSpent + timeSpent, lastVisitTime := some now,
                        visitCount := answer.visitCount + 1 }
        else
          { answer with timeSpent := answer.timeSpent + timeSpent, lastVisitTime := some now }
      (.ok newRow.timeSpent newRow.visitCount,
       { db with answers := db.answers.map (fun r =>
           if rowKey attemptId questionId r then newRow else r) })

/-- One `prisma.answer.upsert` of `syncTimeData`: applied only when the delta is
a positive number; an existing row gets `timeSpent` incremented and
`lastVisitTime` stamped, an absent row is created with `visitCount = 1` and both
visit timestamps set. -/
def applyTimeEntry (attemptId : Nat) (now : Nat) (answers : List Answer) (e : Nat × Int) :
    List Answer :=
  if e.2 > 0 then
    if answers.any (rowKey attemptId e.1) then
      answers.map (fun r =>
        if rowKey attemptId e.1 r then
          { r with timeSpent := r.timeSpent + e.2, lastVisitTime := some now }
        else r)
    else
      answers ++ [{ freshAnswer attemptId e.1 with
        timeSpent := e.2, visitCount := 1, firstVisitTime := some now,
        lastVisitTime := some now }]
  else answers

/-- Translation of `syncTimeData` (attemptController.js lines 974-1025): the map
of `questionId -> timeSpent` deltas, applied as upserts inside one transaction;
entries whose delta is not a positive number are skipped.  The response reports
the total number of keys received. -/
def syncTimeData (db : DB) (attemptId : Nat) (questionTimes : List (Nat × Int)) (now : Nat) :
    Nat × DB :=
  (questionTimes.length,
   { db with answers := questionTimes.foldl (applyTimeEntry attemptId now) db.answers })

/-- Translation of `requestResume` (attemptController.js lines 382-399): set
`needsResume` and stamp `resumeRequestedAt`; a missing attempt makes the update
reject (HTTP 500), modelled as `false`. -/
def requestResume (db : DB) (attemptId : Nat) (now : Nat) : Bool × DB :=
  if db.attempts.any (fun a => a.id == attemptId) then
    (true, { db with attempts := db.attempts.map (fun a =>
       if a.id == attemptId then
         { a with needsResume := true, resumeRequestedAt := some now }
       else a) })
  else (false, db)

/-- Translation of `allowResume` (attemptController.js lines 402-419): grant
resume permission. -/
def allowResume (db : DB) (attemptId : Nat) : Bool × DB :=
  if db.attempts.any (fun a => a.id == attemptId) then
    (true, { db with attempts := db.attempts.map (fun a =>
       if a.id == attemptId then
         { a with canResume := true, needsResume := false }
       else a) })
  else (false, db)

/-- Sort key of `orderBy: { endTime: 'desc' }`: a null `endTime` sorts first
under Postgres descending order, i.e. as the greatest key. -/
def endTimeKey : Option Nat → WithTop Nat
  | none => ⊤
  | some n => (n : WithTop Nat)

/-- Descending comparison on `endTime` used by `getUserAttempts`. -/
def endTimeDescLE (x y : TestAttempt) : Prop :=
  endTimeKey y.endTime ≤ endTimeKey x.endTime

instance : DecidableRel endTimeDescLE := fun x y =>
  inferInstanceAs (Decidable (endTimeKey y.endTime ≤ endTimeKey x.endTime))

instance : IsTotal TestAttempt endTimeDescLE :=
  ⟨fun x y => (le_total (endTimeKey y.endTime) (endTimeKey x.endTime)).elim Or.inl Or.inr⟩

instance : IsTrans TestAttempt endTimeDescLE :=
  ⟨fun _ _ _ h1 h2 => le_trans h2 h1⟩

/-- Translation of `getUserAttempts` (attemptController.js lines 339-370): the
attempts of `candidateName` with `isCompleted: true`, ordered by `endTime`
descending. -/
def getUserAttempts (db : DB) (candidateName : String) : List TestAttempt :=
  List.insertionSort endTimeDescLE
    (db.attempts.filter (fun a => a.candidateName == candidateName && a.isCompleted))

/-- One externally triggered operation of the attempt engine, as a transition
on the store. -/
inductive Step : DB → DB → Prop
  | start (db : DB) (testId : Nat) (name : String) (img : Option String) (newId now : Nat) :
      Step db (startTestAttempt db testId name img newId now).2
  | sync (db : DB) (attemptId : Nat) (payload : List SubmittedAnswer) :
      Step db (syncAnswers db attemptId payload).2
  | submit (db : DB) (attemptId : Nat) (payload : List SubmittedAnswer) (now : Nat) :
      Step db (submitTest db attemptId payload now).2
  | warn (db : DB) (attemptId now : Nat) :
      Step db (updateWarningCount db attemptId now).2
  | reqResume (db : DB) (attemptId now : Nat) :
      Step db (requestResume db attemptId now).2
  | allow (db : DB) (attemptId : Nat) :
      Step db (allowResume db attemptId).2
  | qTime (db : DB) (attemptId questionId : Nat) (t : Int) (action : String) (now : Nat) :
      Step db (updateQuestionTime db attemptId questionId t action now).2
  | sTime (db : DB) (attemptId : Nat) (qt : List (Nat × Int)) (now : Nat) :
      Step db (syncTimeData db attemptId qt now).2

/-- Reachability of a store state through the engine's operations. -/
def Reachable (db0 db : DB) : Prop := Relation.ReflTransGen Step db0 db

/-- Helper for stating isCompleted-insensitivity of `submitTest`: the store with
one attempt's `isCompleted` flag forced to `b`. -/
def setCompleted (db : DB) (attemptId : Nat) (b : Bool) : DB :=
  { db with attempts := db.attempts.map (fun a =>
      if a.id == attemptId then { a with isCompleted := b } else a) }

/-- A completed attempt used in concrete evaluations. -/
def attFixDone : TestAttempt :=
  { id := 1, testId := 1, candidateName := "alice", candidateImage := none,
    startTime := 0, endTime := some 60, totalMarks := 4, isCompleted := true,
    warningCount := 0, needsResume := false, canResume := false,
    resumeRequestedAt := none }

/-- An older completed attempt of the same candidate on another test. -/
def attFixOld : TestAttempt :=
  { id := 2, testId := 2, candidateName := "alice", candidateImage := none,
    startTime := 0, endTime := some 30, totalMarks := 2, isCompleted := true,
    warningCount := 0, needsResume := false, canResume := false,
    resumeRequestedAt := none }

/-- An in-progress attempt of the same candidate. -/
def attFixLive : TestAttempt :=
  { id := 3, testId := 3, candidateName := "alice", candidateImage := none,
    startTime := 10, endTime := none, totalMarks := 0, isCompleted := false,
    warningCount := 0, needsResume := false, canResume := false,
    resumeRequestedAt := none }

/-- Store used to exercise `getUserAttempts`: two completed attempts and an
incomplete one for the same candidate. -/
def dbC10 : DB := { tests := [], attempts := [attFixOld, attFixDone, attFixLive], answers := [] }

/-- An MCQ question with correct option B, the default 4 / -1 marking. -/
def qFixB : Question :=
  { id := 1, questionNumber := 1, correctOption := some "B", correctInteger := none,
    marks := 4, negativeMarks := -1 }

/-- A second MCQ question with correct option C. -/
def qFixC : Question :=
  { id := 2, questionNumber := 2, correctOption := some "C", correctInteger := none,
    marks := 4, negativeMarks := -1 }

/-- A live test holding `qFixB` and `qFixC` in one MCQ section. -/
def testFix : Test :=
  { id := 1, isLive := true,
    sections := [{ id := 1, questionType := .MCQ, order := 0, questions := [qFixB, qFixC] }] }

/-- An in-progress attempt on `testFix`. -/
def attFix : TestAttempt :=
  { id := 1, testId := 1, candidateName := "alice", candidateImage := none,
    startTime := 0, endTime := none, totalMarks := 0, isCompleted := false,
    warningCount := 0, needsResume := false, canResume := false,
    resumeRequestedAt := none }

/-- Store exhibiting a mid-batch submit failure: the attempt has an answer row
for question 1 but the row for question 2 is missing. -/
def dbC7 : DB := { tests := [testFix], attempts := [attFix], answers := [freshAnswer 1 1] }

/-- Submit payload answering both questions of `testFix` correctly. -/
def payloadBoth : List SubmittedAnswer :=
  [{ questionId := 1, selectedOption := some "B", integerAnswer := none, status := .ANSWERED },
   { questionId := 2, selectedOption := some "C", integerAnswer := none, status := .ANSWERED }]

/-- Store used to exercise `syncAnswers`: rows exist for questions 1 and 2 of
attempt 1, and a sync batch also names the missing question 9. -/
def dbC6 : DB :=
  { tests := [testFix], attempts := [attFix], answers := [freshAnswer 1 1, freshAnswer 1 2] }

/-- Sync batch whose middle entry targets a missing row. -/
def payloadC6 : List SubmittedAnswer :=
  [{ questionId := 1, selectedOption := some "A", integerAnswer := none, status := .ANSWERED },
   { questionId := 9, selectedOption := some "D", integerAnswer := none, status := .ANSWERED },
   { questionId := 2, selectedOption := some "C", integerAnswer := none, status := .MARKED_FOR_REVIEW }]

/-- A live test holding only `qFixB`. -/
def testFix1 : Test :=
  { id := 1, isLive := true,
    sections := [{ id := 1, questionType := .MCQ, order := 0, questions := [qFixB] }] }

/-- An already scored answer row, as left behind by a completed submit. -/
def rowScoredB : Answer :=
  { freshAnswer 1 1 with
    selectedOption := some "B", status := .ANSWERED,
    isCorrect := some true, marksAwarded := 4 }

/-- Store with a completed, already scored attempt on `testFix1`. -/
def dbC2 : DB := { tests := [testFix1], attempts := [attFixDone], answers := [rowScoredB] }

/-- A submit payload changing the answer of question 1 to a wrong option. -/
def payloadWrongA : List SubmittedAnswer :=
  [{ questionId := 1, selectedOption := some "A", integerAnswer := none, status := .ANSWERED }]

/-- The completed attempt with five warnings already recorded. -/
def attFixDoneWarn : TestAttempt := { attFixDone with warningCount := 5 }

/-- Store with a completed attempt that already went through the warning
threshold. -/
def dbC2w : DB := { tests := [testFix1], attempts := [attFixDoneWarn], answers := [rowScoredB] }

/-- A question sitting in an INTEGER section although its `correctOption` is
set and its `correctInteger` is null: nothing in the schema or the controllers
forbids this shape. -/
def qIntWithOption : Question :=
  { id := 3, questionNumber := 1, correctOption := some "B", correctInteger := none,
    marks := 4, negativeMarks := -1 }

/-- An INTEGER section holding `qIntWithOption`. -/
def secInt : Section :=
  { id := 2, questionType := .INTEGER, order := 0, questions := [qIntWithOption] }

/-- A question sitting in an MCQ section although its `correctInteger` is set
and its `correctOption` is null. -/
def qMcqWithInt : Question :=
  { id := 4, questionNumber := 1, correctOption := none, correctInteger := some 7,
    marks := 4, negativeMarks := -1 }

/-- An MCQ section holding `qMcqWithInt`. -/
def secMcq : Section :=
  { id := 3, questionType := .MCQ, order := 1, questions := [qMcqWithInt] }

/-- A store holding one live test and no attempt, ready to start. -/
def dbStart : DB := { tests := [testFix1], attempts := [], answers := [] }

/-- Store with an in-progress attempt on the one-question test and its single
pre-created answer row. -/
def dbC3 : DB := { tests := [testFix1], attempts := [attFix], answers := [freshAnswer 1 1] }

/-- A submit payload listing the same correct answer twice for question 1. -/
def payloadDup : List SubmittedAnswer :=
  [{ questionId := 1, selectedOption := some "B", integerAnswer := none, status := .ANSWERED },
   { questionId := 1, selectedOption := some "B", integerAnswer := none, status := .ANSWERED }]

/-- The marks a scored batch assigns to the row of question `q` (0 when the
batch does not touch `q`). -/
def scoredMarkAt (scored : List ScoredAnswer) (q : Nat) : Int :=
  match scored.find? (fun u => u.questionId == q) with
  | some u => u.marksAwarded
  | none => 0

end JeeTest

namespace JeeTest

/-- Mapping a list of answer rows by any key-preserving function preserves the
existence check for a given key. -/
theorem any_rowKey_map (f : Answer → Answer)
    (hf : ∀ r, (f r).attemptId = r.attemptId ∧ (f r).questionId = r.questionId)
    (l : List Answer) (a q : Nat) :
    (l.map f).any (rowKey a q) = l.any (rowKey a q) := by
  induction l with
  | nil => rfl
  | cons r t ih =>
    simp only [List.map_cons, List.any_cons, ih]
    have h1 := (hf r).1
    have h2 := (hf r).2
    simp [rowKey, h1, h2]

/-- The row update of `applySyncEntry` preserves the row key. -/
theorem applySyncEntry_key_preserving (aid : Nat) (e : SubmittedAnswer) :
    ∀ r : Answer,
      ((if rowKey aid e.questionId r then
          { r with selectedOption := e.selectedOption, integerAnswer := e.integerAnswer,
                   status := e.status }
        else r) : Answer).attemptId = r.attemptId ∧
      ((if rowKey aid e.questionId r then
          { r with selectedOption := e.selectedOption, integerAnswer := e.integerAnswer,
                   status := e.status }
        else r) : Answer).questionId = r.questionId := by
  intro r
  by_cases h : rowKey aid e.questionId r <;> simp [h]

/-- Applying one sync entry never changes which keys exist. -/
theorem any_rowKey_applySyncEntry (aid : Nat) (xs : List Answer) (e : SubmittedAnswer)
    (a q : Nat) :
    (applySyncEntry aid xs e).any (rowKey a q) = xs.any (rowKey a q) := by
  unfold applySyncEntry
  exact any_rowKey_map _ (applySyncEntry_key_preserving aid e) xs a q

/-- An entry whose row does not exist leaves the store untouched. -/
theorem applySyncEntry_of_missing (aid : Nat) (xs : List Answer) (e : SubmittedAnswer)
    (h : xs.any (rowKey aid e.questionId) = false) :
    applySyncEntry aid xs e = xs := by
  unfold applySyncEntry
  have hall : ∀ r ∈ xs, rowKey aid e.questionId r = false := by
    intro r hr
    by_contra hc
    have : xs.any (rowKey aid e.questionId) = true :=
      List.any_eq_true.mpr ⟨r, hr, by simpa using hc⟩
    simp [this] at h
  have hmap : xs.map (fun r =>
      if rowKey aid e.questionId r then
        { r with selectedOption := e.selectedOption, integerAnswer := e.integerAnswer,
                 status := e.status }
      else r) = xs.map id :=
    List.map_congr_left (fun r hr => by simp [hall r hr])
  rw [hmap, List.map_id]

/-- Folding a sync batch equals folding only the entries whose row exists. -/
theorem syncAnswers_foldl_filter (aid : Nat) :
    ∀ (payload : List SubmittedAnswer) (xs : List Answer),
    payload.foldl (applySyncEntry aid) xs =
      (payload.filter (fun e => xs.any (rowKey aid e.questionId))).foldl
        (applySyncEntry aid) xs := by
  intro payload
  induction payload with
  | nil => intro xs; rfl
  | cons e rest ih =>
    intro xs
    by_cases hg : xs.any (rowKey aid e.questionId) = true
    · have hfc : rest.filter (fun e2 => (applySyncEntry aid xs e).any (rowKey aid e2.questionId))
          = rest.filter (fun e2 => xs.any (rowKey aid e2.questionId)) :=
        List.filter_congr (fun e2 _ => any_rowKey_applySyncEntry aid xs e aid e2.questionId)
      simp only [List.foldl_cons, List.filter_cons, hg, if_true]
      rw [ih (applySyncEntry aid xs e), hfc]
    · have hg2 : xs.any (rowKey aid e.questionId) = false := by
        cases h2 : xs.any (rowKey aid e.questionId) with
        | true => exact absurd h2 hg
        | false => rfl
      simp only [List.foldl_cons, List.filter_cons, hg2,
        applySyncEntry_of_missing aid xs e hg2]
      simp only [Bool.false_eq_true, if_false]
      exact ih xs

/-- Claim C10: the user-attempts accessor returns exactly the candidate's
completed attempts (never an incomplete one), ordered by `endTime`
descending. -/
theorem getUserAttempts_only_completed_sorted (db : DB) (candidateName : String) :
    (∀ a ∈ getUserAttempts db candidateName,
        a.isCompleted = true ∧ a.candidateName = candidateName ∧ a ∈ db.attempts) ∧
    (∀ a ∈ db.attempts, a.candidateName = candidateName → a.isCompleted = true →
        a ∈ getUserAttempts db candidateName) ∧
    (getUserAttempts db candidateName).Sorted endTimeDescLE := by
  have hperm : List.Perm (getUserAttempts db candidateName)
      (db.attempts.filter (fun a => a.candidateName == candidateName && a.isCompleted)) :=
    List.perm_insertionSort _ _
  refine ⟨?_, ?_, List.sorted_insertionSort _ _⟩
  · intro a ha
    have hm := hperm.mem_iff.mp ha
    rw [List.mem_filter] at hm
    obtain ⟨hmem, hcond⟩ := hm
    simp only [Bool.and_eq_true, beq_iff_eq] at hcond
    exact ⟨hcond.2, hcond.1, hmem⟩
  · intro a hmem hname hcomp
    rw [hperm.mem_iff, List.mem_filter]
    exact ⟨hmem, by simp [hname, hcomp]⟩

/-- Witness for C10 at a concrete store: the completed attempt is returned. -/
theorem getUserAttempts_only_completed_sorted_witness :
    attFixDone ∈ getUserAttempts dbC10 "alice" :=
  (getUserAttempts_only_completed_sorted dbC10 "alice").2.1 attFixDone
    (by decide) (by decide) (by decide)

/-- Counterexample to claim C7 as stated: at this concrete store the write-back
of `submitTest` fails (a row is missing) yet the answer row of question 1 has
already been overwritten with post-scoring values, so the store is not left
unchanged on error. -/
theorem submitTest_partial_write_counterexample :
    (submitTest dbC7 1 payloadBoth 100).1 = .updateFailed ∧
    (submitTest dbC7 1 payloadBoth 100).2.answers ≠ dbC7.answers ∧
    ((submitTest dbC7 1 payloadBoth 100).2.answers.find? (rowKey 1 1)).map
        (fun r => (r.isCorrect, r.marksAwarded)) = some (some true, 4) := by
  decide

/-- Claim C7 amended: the write-back of `submitTest` is not all-or-nothing —
answer updates commit independently — but whenever the call does not fully
succeed, the attempt's completion fields and the test's `isLive` flag are left
unwritten. -/
theorem submitTest_failure_leaves_completion_unwritten (db : DB) (attemptId : Nat)
    (payload : List SubmittedAnswer) (now : Nat)
    (h : (submitTest db attemptId payload now).1 ≠ .ok) :
    (submitTest db attemptId payload now).2.attempts = db.attempts ∧
    (submitTest db attemptId payload now).2.tests = db.tests := by
  rcases hcases : submitTest db attemptId payload now with ⟨res, db2⟩
  rw [hcases] at h
  simp only at h ⊢
  unfold submitTest at hcases
  split at hcases
  · cases hcases
    exact ⟨rfl, rfl⟩
  · split at hcases
    · cases hcases
      exact ⟨rfl, rfl⟩
    · split at hcases
      · cases hcases
        exact absurd rfl h
      · cases hcases
        exact ⟨rfl, rfl⟩

/-- Witness for the amended C7 theorem at the concrete failing store. -/
theorem submitTest_failure_leaves_completion_unwritten_witness :
    (submitTest dbC7 1 payloadBoth 100).2.attempts = dbC7.attempts ∧
    (submitTest dbC7 1 payloadBoth 100).2.tests = dbC7.tests :=
  submitTest_failure_leaves_completion_unwritten dbC7 1 payloadBoth 100 (by decide)

/-- Claim C6: a sync entry whose answer row is missing affects only that entry —
the resulting store is the one obtained by applying the entries whose row
exists, and a batch whose rows all exist succeeds as a whole. -/
theorem syncAnswers_per_entry_isolation (db : DB) (attemptId : Nat)
    (payload : List SubmittedAnswer) :
    (syncAnswers db attemptId payload).2 =
      (syncAnswers db attemptId (payload.filter
        (fun e => db.answers.any (rowKey attemptId e.questionId)))).2 ∧
    ((∀ e ∈ payload, db.answers.any (rowKey attemptId e.questionId) = true) →
      (syncAnswers db attemptId payload).1 = .ok payload.length) := by
  constructor
  · unfold syncAnswers
    simp only
    rw [syncAnswers_foldl_filter]
  · intro h
    unfold syncAnswers
    rw [if_pos (List.all_eq_true.mpr h)]

/-- Witness for C6 at a concrete store: a batch with a missing middle entry
produces the same store as the batch without it, and the two good entries are
applied. -/
theorem syncAnswers_per_entry_isolation_witness :
    (syncAnswers dbC6 1 payloadC6).2 =
      (syncAnswers dbC6 1 (payloadC6.filter
        (fun e => dbC6.answers.any (rowKey 1 e.questionId)))).2 ∧
    (syncAnswers dbC6 1 (payloadC6.filter
        (fun e => dbC6.answers.any (rowKey 1 e.questionId)))).1 = .ok 2 := by
  constructor
  · exact (syncAnswers_per_entry_isolation dbC6 1 payloadC6).1
  · exact (syncAnswers_per_entry_isolation dbC6 1 (payloadC6.filter
        (fun e => dbC6.answers.any (rowKey 1 e.questionId)))).2 (by decide)

/-- The attempt lookup of `submitTest` commutes with forcing the `isCompleted`
flag of that attempt. -/
theorem find?_setCompleted (db : DB) (attemptId : Nat) (b : Bool) :
    (setCompleted db attemptId b).attempts.find? (fun a => a.id == attemptId) =
      Option.map (fun a => if a.id == attemptId then { a with isCompleted := b } else a)
        (db.attempts.find? (fun a => a.id == attemptId)) := by
  unfold setCompleted
  simp only
  rw [List.find?_map]
  have hcomp : ((fun a : TestAttempt => a.id == attemptId) ∘ fun a =>
      if a.id == attemptId then { a with isCompleted := b } else a) =
      (fun a : TestAttempt => a.id == attemptId) := by
    funext a
    by_cases h : (a.id == attemptId) = true <;> simp [Function.comp, h]
  rw [hcomp]

/-- The result status and the resulting answer rows of `submitTest` do not
depend on the attempt's `isCompleted` flag: the handler never consults it. -/
theorem submitTest_setCompleted (db : DB) (attemptId : Nat) (b : Bool)
    (payload : List SubmittedAnswer) (now : Nat) :
    (submitTest (setCompleted db attemptId b) attemptId payload now).1 =
      (submitTest db attemptId payload now).1 ∧
    (submitTest (setCompleted db attemptId b) attemptId payload now).2.answers =
      (submitTest db attemptId payload now).2.answers := by
  cases hf : db.attempts.find? (fun a => a.id == attemptId) with
  | none =>
    have h2 : (setCompleted db attemptId b).attempts.find? (fun a => a.id == attemptId) = none := by
      rw [find?_setCompleted, hf]
      rfl
    unfold submitTest
    rw [hf, h2]
    exact ⟨rfl, rfl⟩
  | some att =>
    have hatt : (att.id == attemptId) = true := by
      have h3 := List.find?_some hf
      simpa using h3
    have h2 : (setCompleted db attemptId b).attempts.find? (fun a => a.id == attemptId)
        = some { att with isCompleted := b } := by
      rw [find?_setCompleted, hf]
      simp [Option.map, hatt]
    unfold submitTest
    rw [hf, h2]
    dsimp only [setCompleted, scoredAllExist]
    cases ht : db.tests.find? (fun t => t.id == att.testId) with
    | none => exact ⟨rfl, rfl⟩
    | some test =>
      by_cases hall : ((buildScored test payload).all
          (fun u => db.answers.any (rowKey attemptId u.questionId))) = true
      · simp [hall, submitSuccessDB]
      · rw [Bool.not_eq_true] at hall
        simp [hall, submitSuccessDB]

/-- Counterexample to claim C2 as stated: at this concrete store the attempt is
already completed, yet an explicit submit neither is a no-op nor fails — it
re-scores the attempt and changes the store — and a further warning on a
completed attempt whose count is already past the threshold triggers yet
another submission. -/
theorem submit_after_completion_counterexample :
    attFixDone.isCompleted = true ∧
    (submitTest dbC2 1 payloadWrongA 200).1 = .ok ∧
    (submitTest dbC2 1 payloadWrongA 200).2 ≠ dbC2 ∧
    (updateWarningCount dbC2w 1 300).1 = .submitted .ok := by
  decide

/-- Claim C2 amended: a warning call below the threshold performs no submission
(the answer rows are untouched); a warning call whose post-increment count
reaches 5 or more performs exactly one submission, through the same
`submitTest` path as an explicit submit; and `submitTest` never consults
`isCompleted`, so a submit on a completed attempt re-runs scoring identically
instead of being a no-op or failing with AlreadyCompleted. -/
theorem updateWarningCount_one_submission_and_no_completion_guard
    (db : DB) (attemptId now : Nat) (payload : List SubmittedAnswer) (b : Bool) :
    (∀ att, db.attempts.find? (fun a => a.id == attemptId) = some att →
      (att.warningCount + 1 < 5 →
        updateWarningCount db attemptId now =
          (.warned (att.warningCount + 1), bumpWarning db attemptId) ∧
        (bumpWarning db attemptId).answers = db.answers) ∧
      (att.warningCount + 1 ≥ 5 →
        updateWarningCount db attemptId now =
          (.submitted (submitTest (bumpWarning db attemptId) attemptId
              (attemptRowsPayload (bumpWarning db attemptId) attemptId) now).1,
           (submitTest (bumpWarning db attemptId) attemptId
              (attemptRowsPayload (bumpWarning db attemptId) attemptId) now).2))) ∧
    ((submitTest (setCompleted db attemptId b) attemptId payload now).1 =
        (submitTest db attemptId payload now).1 ∧
     (submitTest (setCompleted db attemptId b) attemptId payload now).2.answers =
        (submitTest db attemptId payload now).2.answers) := by
  refine ⟨?_, submitTest_setCompleted db attemptId b payload now⟩
  intro att hf
  constructor
  · intro hlt
    unfold updateWarningCount
    rw [hf]
    dsimp only
    rw [if_neg (by omega)]
    exact ⟨rfl, rfl⟩
  · intro hge
    unfold updateWarningCount
    rw [hf]
    dsimp only
    rw [if_pos hge]

/-- Witness for the amended C2 theorem: a first warning on a fresh attempt only
counts, and forcing the completed flag off does not change the submit result at
a concrete store. -/
theorem updateWarningCount_one_submission_witness :
    updateWarningCount dbC7 1 10 = (.warned 1, bumpWarning dbC7 1) ∧
    (submitTest (setCompleted dbC2 1 false) 1 payloadWrongA 200).1 =
      (submitTest dbC2 1 payloadWrongA 200).1 := by
  constructor
  · exact (((updateWarningCount_one_submission_and_no_completion_guard dbC7 1 10 [] false).1
      attFix (by decide)).1 (by decide)).1
  · exact (updateWarningCount_one_submission_and_no_completion_guard dbC2 1 200
      payloadWrongA false).2.1

/-- Counterexample to claim C8 as stated: scoring never consults
`questionType`.  A question of an INTEGER section whose `correctOption` happens
to be set is awarded full marks through the option match, and a question of an
MCQ section whose `correctInteger` is set is awarded full marks through the
integer match. -/
theorem scoring_ignores_questionType_counterexample :
    secInt.questionType = .INTEGER ∧ qIntWithOption ∈ secInt.questions ∧
    scoreAnswer qIntWithOption
      { questionId := 3, selectedOption := some "B", integerAnswer := none,
        status := .ANSWERED } = (some true, 4) ∧
    secMcq.questionType = .MCQ ∧ qMcqWithInt ∈ secMcq.questions ∧
    scoreAnswer qMcqWithInt
      { questionId := 4, selectedOption := none, integerAnswer := some 7,
        status := .ANSWERED } = (some true, 4) := by
  decide

/-- Claim C8 amended: the scoring code never consults `questionType`; it tries
the option match first and the integer match second on every question.  Only
when the other correctness field is actually unset (null or empty) is it
guaranteed that no marks flow through it: a correct verdict then pins the
match to the remaining field. -/
theorem scoring_field_exclusivity (q : Question) (a : SubmittedAnswer) :
    (truthyStr q.correctOption = false → (scoreAnswer q a).1 = some true →
       q.correctInteger.isSome = true ∧ a.integerAnswer = q.correctInteger) ∧
    (q.correctInteger = none → (scoreAnswer q a).1 = some true →
       truthyStr q.correctOption = true ∧ a.selectedOption = q.correctOption) := by
  unfold scoreAnswer
  split_ifs with hst hmcq hint hsup <;>
    constructor <;> intro hother hcorr <;> simp_all

/-- Witness for the amended C8 theorem: on a pure MCQ question a correct
verdict pins the option match. -/
theorem scoring_field_exclusivity_witness :
    truthyStr qFixB.correctOption = true ∧
    (SubmittedAnswer.mk 1 (some "B") none .ANSWERED).selectedOption = qFixB.correctOption :=
  (scoring_field_exclusivity qFixB (SubmittedAnswer.mk 1 (some "B") none .ANSWERED)).2
    (by decide) (by decide)

/-- A member satisfying a predicate that holds for at most one element is what
`find?` returns. -/
theorem find?_of_mem_unique {α : Type} {p : α → Bool} {l : List α} {a : α}
    (huniq : ∀ x ∈ l, ∀ y ∈ l, p x = true → p y = true → x = y)
    (ha : a ∈ l) (hpa : p a = true) : l.find? p = some a := by
  cases hf : l.find? p with
  | none => exact absurd hpa (by simpa using List.find?_eq_none.mp hf a ha)
  | some b =>
    rw [huniq b (List.mem_of_find?_eq_some hf) a ha (List.find?_some hf) hpa]

/-- Claim C4: full case analysis of `startTestAttempt`, under the structural
assumptions that at most one attempt exists for the pair (the engine's
invariant) and that the assigned attempt id is fresh.  Missing test gives
NotFound, a non-live test gives TestNotLive, a completed attempt for the pair
gives AlreadyCompleted, an incomplete attempt gated on resume gives
ResumePermissionRequired carrying its id, and otherwise a fresh attempt is
created (replacing any prior incomplete one) with exactly one `NOT_VISITED`
answer row per question of the test. -/
theorem startTestAttempt_case_analysis
    (db : DB) (testId : Nat) (candidateName : String) (candidateImage : Option String)
    (newId now : Nat)
    (huniq : ∀ x ∈ db.attempts, ∀ y ∈ db.attempts,
        pairMatch testId candidateName x = true → pairMatch testId candidateName y = true → x = y)
    (hfresh : ∀ r ∈ db.answers, (r.attemptId == newId) = false) :
    (db.tests.find? (fun t => t.id == testId) = none →
      startTestAttempt db testId candidateName candidateImage newId now = (.notFound, db)) ∧
    (∀ test, db.tests.find? (fun t => t.id == testId) = some test → test.isLive = false →
      startTestAttempt db testId candidateName candidateImage newId now = (.testNotLive, db)) ∧
    (∀ test, db.tests.find? (fun t => t.id == testId) = some test → test.isLive = true →
      ∀ a ∈ db.attempts, pairMatch testId candidateName a = true → a.isCompleted = true →
      startTestAttempt db testId candidateName candidateImage newId now = (.alreadyCompleted, db)) ∧
    (∀ test, db.tests.find? (fun t => t.id == testId) = some test → test.isLive = true →
      ∀ a ∈ db.attempts, pairMatch testId candidateName a = true → a.isCompleted = false →
      a.needsResume = true → a.canResume = false →
      startTestAttempt db testId candidateName candidateImage newId now =
        (.resumeRequired a.id, db)) ∧
    (∀ test, db.tests.find? (fun t => t.id == testId) = some test → test.isLive = true →
      (∀ a ∈ db.attempts, pairMatch testId candidateName a = true →
          a.isCompleted = false ∧ (a.needsResume = false ∨ a.canResume = true)) →
      (startTestAttempt db testId candidateName candidateImage newId now).1 = .created newId ∧
      createdAttempt testId candidateName candidateImage newId now ∈
        (startTestAttempt db testId candidateName candidateImage newId now).2.attempts ∧
      (∀ a ∈ (startTestAttempt db testId candidateName candidateImage newId now).2.attempts,
          pairMatch testId candidateName a = true →
          a = createdAttempt testId candidateName candidateImage newId now) ∧
      ((startTestAttempt db testId candidateName candidateImage newId now).2.answers.filter
          (fun r => r.attemptId == newId)).map (fun r => r.questionId)
        = test.allQuestions.map (fun q => q.id) ∧
      (∀ r ∈ (startTestAttempt db testId candidateName candidateImage newId now).2.answers,
          (r.attemptId == newId) = true → r = freshAnswer newId r.questionId)) := by
  refine ⟨?_, ?_, ?_, ?_, ?_⟩
  · intro h
    unfold startTestAttempt
    rw [h]
  · intro test htest hlive
    unfold startTestAttempt
    rw [htest]
    dsimp only
    rw [if_pos hlive]
  · intro test htest hlive a hmem hpair hcomp
    have hfind : db.attempts.find? (pairMatch testId candidateName) = some a :=
      find?_of_mem_unique huniq hmem hpair
    unfold startTestAttempt
    rw [htest]
    dsimp only
    rw [if_neg (by simp [hlive]), hfind]
    dsimp only
    rw [if_pos hcomp]
  · intro test htest hlive a hmem hpair hcomp hnr hcr
    have hfind : db.attempts.find? (pairMatch testId candidateName) = some a :=
      find?_of_mem_unique huniq hmem hpair
    unfold startTestAttempt
    rw [htest]
    dsimp only
    rw [if_neg (by simp [hlive]), hfind]
    dsimp only
    rw [if_neg (by simp [hcomp]), if_pos (by simp [hnr, hcr])]
  · intro test htest hlive hcond
    unfold startTestAttempt
    rw [htest]
    dsimp only
    rw [if_neg (by simp [hlive])]
    cases hfind : db.attempts.find? (pairMatch testId candidateName) with
    | none =>
      dsimp only
      refine ⟨rfl, ?_, ?_, ?_, ?_⟩
      · exact List.mem_append_right _ (List.mem_singleton.mpr rfl)
      · intro a hmem hpair
        rcases List.mem_append.mp hmem with h | h
        · exact absurd hpair (by simpa using List.find?_eq_none.mp hfind a h)
        · exact List.mem_singleton.mp h
      · rw [List.filter_append]
        have h1 : db.answers.filter (fun r => r.attemptId == newId) = [] :=
          List.filter_eq_nil_iff.mpr (fun r hr => by simp [hfresh r hr])
        have h2 : (test.allQuestions.map (fun q => freshAnswer newId q.id)).filter
            (fun r => r.attemptId == newId)
            = test.allQuestions.map (fun q => freshAnswer newId q.id) :=
          List.filter_eq_self.mpr (fun r hr => by
            rcases List.mem_map.mp hr with ⟨q, _, rfl⟩
            simp [freshAnswer])
        rw [h1, h2]
        simp only [List.nil_append, List.map_map]
        rfl
      · intro r hmem hmatch
        rcases List.mem_append.mp hmem with h | h
        · exact absurd hmatch (by simp [hfresh r h])
        · rcases List.mem_map.mp h with ⟨q, _, rfl⟩
          rfl
    | some ex =>
      have hexmem : ex ∈ db.attempts := List.mem_of_find?_eq_some hfind
      have hexpair : pairMatch testId candidateName ex = true := List.find?_some hfind
      obtain ⟨hcompl, hd⟩ := hcond ex hexmem hexpair
      dsimp only
      rw [if_neg (by simp [hcompl]), if_neg (by rcases hd with h | h <;> simp [h])]
      refine ⟨rfl, ?_, ?_, ?_, ?_⟩
      · exact List.mem_append_right _ (List.mem_singleton.mpr rfl)
      · intro a hmem hpair
        rcases List.mem_append.mp hmem with h | h
        · rw [List.mem_filter] at h
          obtain ⟨hmem2, hid⟩ := h
          have : a = ex := huniq a hmem2 ex hexmem hpair hexpair
          subst this
          simp at hid
        · exact List.mem_singleton.mp h
      · rw [List.filter_append]
        have h1 : (db.answers.filter (fun r => r.attemptId != ex.id)).filter
            (fun r => r.attemptId == newId) = [] :=
          List.filter_eq_nil_iff.mpr (fun r hr => by
            have : r ∈ db.answers := (List.mem_filter.mp hr).1
            simp [hfresh r this])
        have h2 : (test.allQuestions.map (fun q => freshAnswer newId q.id)).filter
            (fun r => r.attemptId == newId)
            = test.allQuestions.map (fun q => freshAnswer newId q.id) :=
          List.filter_eq_self.mpr (fun r hr => by
            rcases List.mem_map.mp hr with ⟨q, _, rfl⟩
            simp [freshAnswer])
        rw [h1, h2]
        simp only [List.nil_append, List.map_map]
        rfl
      · intro r hmem hmatch
        rcases List.mem_append.mp hmem with h | h
        · have : r ∈ db.answers := (List.mem_filter.mp h).1
          exact absurd hmatch (by simp [hfresh r this])
        · rcases List.mem_map.mp h with ⟨q, _, rfl⟩
          rfl

/-- Witness for C4 at a concrete store: starting on a live test with no prior
attempt creates attempt 7. -/
theorem startTestAttempt_case_analysis_witness :
    (startTestAttempt dbStart 1 "bob" none 7 5).1 = .created 7 :=
  (((startTestAttempt_case_analysis dbStart 1 "bob" none 7 5 (by decide) (by decide)).2.2.2.2)
    testFix1 (by decide) (by decide) (by decide)).1

/-- Two rows of a key-unique answer table with the same key are the same
row. -/
theorem row_eq_of_key_nodup {rows : List Answer}
    (hkeys : (rows.map (fun r => (r.attemptId, r.questionId))).Nodup)
    {r f : Answer} (hr : r ∈ rows) (hf : f ∈ rows)
    (ha : r.attemptId = f.attemptId) (hq : r.questionId = f.questionId) : r = f :=
  List.inj_on_of_nodup_map hkeys hr hf (by rw [ha, hq])

/-- One bulk time upsert leaves every existing row with the same key, an
unchanged `visitCount`, and a `timeSpent` that did not decrease. -/
theorem applyTimeEntry_evolve (aid now : Nat) (xs : List Answer) (e : Nat × Int) :
    ∀ r ∈ xs, ∃ r2 ∈ applyTimeEntry aid now xs e,
      r2.attemptId = r.attemptId ∧ r2.questionId = r.questionId ∧
      r.timeSpent ≤ r2.timeSpent ∧ r2.visitCount = r.visitCount := by
  intro r hr
  unfold applyTimeEntry
  by_cases hpos : e.2 > 0
  · rw [if_pos hpos]
    by_cases hex : xs.any (rowKey aid e.1) = true
    · rw [if_pos hex]
      refine ⟨_, List.mem_map.mpr ⟨r, hr, rfl⟩, ?_⟩
      by_cases hk : rowKey aid e.1 r = true
      · rw [if_pos hk]
        refine ⟨rfl, rfl, ?_, rfl⟩
        show r.timeSpent ≤ r.timeSpent + e.2
        omega
      · rw [if_neg hk]
        exact ⟨rfl, rfl, le_refl _, rfl⟩
    · rw [if_neg hex]
      exact ⟨r, List.mem_append_left _ hr, rfl, rfl, le_refl _, rfl⟩
  · rw [if_neg hpos]
    exact ⟨r, hr, rfl, rfl, le_refl _, rfl⟩

/-- Folding a bulk time batch leaves every existing row with the same key, an
unchanged `visitCount`, and a `timeSpent` that did not decrease. -/
theorem foldl_timeEntry_evolve (aid now : Nat) :
    ∀ (l : List (Nat × Int)) (xs : List Answer), ∀ r ∈ xs,
      ∃ r2 ∈ l.foldl (applyTimeEntry aid now) xs,
        r2.attemptId = r.attemptId ∧ r2.questionId = r.questionId ∧
        r.timeSpent ≤ r2.timeSpent ∧ r2.visitCount = r.visitCount := by
  intro l
  induction l with
  | nil => intro xs r hr; exact ⟨r, hr, rfl, rfl, le_refl _, rfl⟩
  | cons e rest ih =>
    intro xs r hr
    obtain ⟨r1, hr1, ha1, hq1, ht1, hv1⟩ := applyTimeEntry_evolve aid now xs e r hr
    obtain ⟨r2, hr2, ha2, hq2, ht2, hv2⟩ := ih (applyTimeEntry aid now xs e) r1 hr1
    exact ⟨r2, hr2, by rw [ha2, ha1], by rw [hq2, hq1], le_trans ht1 ht2, by rw [hv2, hv1]⟩

/-- Every row present after a bulk time batch either existed before (same key)
or was created by the batch with `visitCount = 1`. -/
theorem foldl_timeEntry_created (aid now : Nat) (base : List Answer) :
    ∀ (l : List (Nat × Int)) (xs : List Answer),
      (∀ r2 ∈ xs, (∃ r ∈ base, r.attemptId = r2.attemptId ∧ r.questionId = r2.questionId) ∨
        r2.visitCount = 1) →
      ∀ r2 ∈ l.foldl (applyTimeEntry aid now) xs,
        (∃ r ∈ base, r.attemptId = r2.attemptId ∧ r.questionId = r2.questionId) ∨
        r2.visitCount = 1 := by
  intro l
  induction l with
  | nil => intro xs h; exact h
  | cons e rest ih =>
    intro xs h
    apply ih
    intro r2 hr2
    unfold applyTimeEntry at hr2
    by_cases hpos : e.2 > 0
    · rw [if_pos hpos] at hr2
      by_cases hex : xs.any (rowKey aid e.1) = true
      · rw [if_pos hex] at hr2
        rcases List.mem_map.mp hr2 with ⟨r1, hr1, rfl⟩
        rcases h r1 hr1 with hL | hR
        · left
          obtain ⟨r, hrb, ha, hq⟩ := hL
          refine ⟨r, hrb, ?_, ?_⟩ <;>
            by_cases hk : rowKey aid e.1 r1 = true <;> simp [hk, ha, hq]
        · right
          by_cases hk : rowKey aid e.1 r1 = true <;> simp [hk, hR]
      · rw [if_neg hex] at hr2
        rcases List.mem_append.mp hr2 with hL | hNew
        · exact h r2 hL
        · right
          rw [List.mem_singleton] at hNew
          subst hNew
          rfl
    · rw [if_neg hpos] at hr2
      exact h r2 hr2

/-- A bulk time batch equals the batch restricted to its positive entries. -/
theorem foldl_timeEntry_filter (aid now : Nat) :
    ∀ (l : List (Nat × Int)) (xs : List Answer),
      l.foldl (applyTimeEntry aid now) xs =
        (l.filter (fun e => decide (e.2 > 0))).foldl (applyTimeEntry aid now) xs := by
  intro l
  induction l with
  | nil => intro xs; rfl
  | cons e rest ih =>
    intro xs
    by_cases hpos : e.2 > 0
    · rw [List.filter_cons, if_pos (by simpa using hpos)]
      simp only [List.foldl_cons]
      exact ih (applyTimeEntry aid now xs e)
    · have hid : applyTimeEntry aid now xs e = xs := by
        unfold applyTimeEntry
        rw [if_neg hpos]
      rw [List.filter_cons, if_neg (by simpa using hpos)]
      simp only [List.foldl_cons, hid]
      exact ih xs

/-- Claim C9: under the structural key-uniqueness invariant of the `answers`
table, both TimeTracker entry points keep `timeSpent` non-decreasing for every
input; the incremental path sets `visitCount` to 1 on the first visit,
increments it only on an explicit "visit" action, and leaves it alone on
continuous updates; the bulk path never changes the `visitCount` of an
existing row and creates absent rows with `visitCount = 1`; a negative delta
is rejected unapplied by the incremental path and non-positive deltas are
skipped unapplied by the bulk path. -/
theorem timeTracker_monotonic_visits_validation
    (db : DB) (attemptId questionId : Nat) (t : Int) (action : String)
    (qt : List (Nat × Int)) (now : Nat)
    (hkeys : (db.answers.map (fun r => (r.attemptId, r.questionId))).Nodup) :
    (∀ r ∈ db.answers,
      ∃ r2 ∈ (updateQuestionTime db attemptId questionId t action now).2.answers,
        r2.attemptId = r.attemptId ∧ r2.questionId = r.questionId ∧
        r.timeSpent ≤ r2.timeSpent ∧
        (¬(r.attemptId = attemptId ∧ r.questionId = questionId) → r2 = r) ∧
        (r.attemptId = attemptId → r.questionId = questionId → ¬t < 0 →
          r2.timeSpent = r.timeSpent + t ∧
          (r.firstVisitTime = none → r2.visitCount = 1) ∧
          (r.firstVisitTime ≠ none → action = "visit" → r2.visitCount = r.visitCount + 1) ∧
          (r.firstVisitTime ≠ none → action ≠ "visit" → r2.visitCount = r.visitCount))) ∧
    (t < 0 → updateQuestionTime db attemptId questionId t action now = (.invalidData, db)) ∧
    (∀ r ∈ db.answers,
      ∃ r2 ∈ (syncTimeData db attemptId qt now).2.answers,
        r2.attemptId = r.attemptId ∧ r2.questionId = r.questionId ∧
        r.timeSpent ≤ r2.timeSpent ∧ r2.visitCount = r.visitCount) ∧
    (∀ r2 ∈ (syncTimeData db attemptId qt now).2.answers,
      (∀ r ∈ db.answers, ¬(r.attemptId = r2.attemptId ∧ r.questionId = r2.questionId)) →
      r2.visitCount = 1) ∧
    (syncTimeData db attemptId qt now).2 =
      (syncTimeData db attemptId (qt.filter (fun e => decide (e.2 > 0))) now).2 := by
  refine ⟨?_, ?_, ?_, ?_, ?_⟩
  · intro r hr
    unfold updateQuestionTime
    by_cases hneg : t < 0
    · rw [if_pos hneg]
      exact ⟨r, hr, rfl, rfl, le_refl _, fun _ => rfl, fun _ _ h => absurd hneg h⟩
    · rw [if_neg hneg]
      cases hfind : db.answers.find? (rowKey attemptId questionId) with
      | none =>
        dsimp only
        refine ⟨r, hr, rfl, rfl, le_refl _, fun _ => rfl, ?_⟩
        intro ha hq _
        exfalso
        exact List.find?_eq_none.mp hfind r hr (by simp [rowKey, ha, hq])
      | some f =>
        dsimp only
        by_cases hk : rowKey attemptId questionId r = true
        · have hfmem := List.mem_of_find?_eq_some hfind
          have hfkey : rowKey attemptId questionId f = true := List.find?_some hfind
          have hka : r.attemptId = attemptId ∧ r.questionId = questionId := by
            simpa [rowKey] using hk
          have hfa : f.attemptId = attemptId ∧ f.questionId = questionId := by
            simpa [rowKey] using hfkey
          have heq : f = r :=
            row_eq_of_key_nodup hkeys hfmem hr (by rw [hka.1, hfa.1]) (by rw [hka.2, hfa.2])
          subst heq
          refine ⟨_, List.mem_map.mpr ⟨f, hr, rfl⟩, ?_⟩
          rw [if_pos hk]
          by_cases hv : f.firstVisitTime = none
          · rw [if_pos hv]
            refine ⟨rfl, rfl, show f.timeSpent ≤ f.timeSpent + t by omega, ?_, ?_⟩
            · intro hcon
              exact absurd ⟨hka.1, hka.2⟩ hcon
            · intro _ _ _
              exact ⟨rfl, fun _ => rfl, fun hnv _ => absurd hv hnv, fun hnv _ => absurd hv hnv⟩
          · rw [if_neg hv]
            by_cases hact : action = "visit"
            · rw [if_pos hact]
              refine ⟨rfl, rfl, show f.timeSpent ≤ f.timeSpent + t by omega, ?_, ?_⟩
              · intro hcon
                exact absurd ⟨hka.1, hka.2⟩ hcon
              · intro _ _ _
                exact ⟨rfl, fun h0 => absurd h0 hv, fun _ _ => rfl,
                  fun _ hna => absurd hact hna⟩
            · rw [if_neg hact]
              refine ⟨rfl, rfl, show f.timeSpent ≤ f.timeSpent + t by omega, ?_, ?_⟩
              · intro hcon
                exact absurd ⟨hka.1, hka.2⟩ hcon
              · intro _ _ _
                exact ⟨rfl, fun h0 => absurd h0 hv, fun _ ha2 => absurd ha2 hact,
                  fun _ _ => rfl⟩
        · refine ⟨_, List.mem_map.mpr ⟨r, hr, rfl⟩, ?_⟩
          rw [if_neg hk]
          refine ⟨rfl, rfl, le_refl _, fun _ => rfl, ?_⟩
          intro ha hq _
          exact absurd (by simp [rowKey, ha, hq]) hk
  · intro hneg
    unfold updateQuestionTime
    rw [if_pos hneg]
  · intro r hr
    exact foldl_timeEntry_evolve attemptId now qt db.answers r hr
  · intro r2 hr2 hnone
    have hbase : ∀ x ∈ db.answers,
        (∃ r ∈ db.answers, r.attemptId = x.attemptId ∧ r.questionId = x.questionId) ∨
        x.visitCount = 1 :=
      fun x hx => Or.inl ⟨x, hx, rfl, rfl⟩
    rcases foldl_timeEntry_created attemptId now db.answers qt db.answers hbase r2 hr2 with
      hL | hR
    · obtain ⟨r, hrb, ha, hq⟩ := hL
      exact absurd ⟨ha, hq⟩ (hnone r hrb)
    · exact hR
  · unfold syncTimeData
    rw [foldl_timeEntry_filter attemptId now qt db.answers]

/-- Witness for C9 at a concrete store: a continuous (non-"visit") update on a
fresh row tracks the delta. -/
theorem timeTracker_monotonic_visits_validation_witness :
    ∃ r2 ∈ (updateQuestionTime dbC6 1 1 5 "update" 50).2.answers,
      r2.attemptId = (freshAnswer 1 1).attemptId ∧
      r2.questionId = (freshAnswer 1 1).questionId ∧
      (freshAnswer 1 1).timeSpent ≤ r2.timeSpent ∧
      (¬((freshAnswer 1 1).attemptId = 1 ∧ (freshAnswer 1 1).questionId = 1) →
        r2 = freshAnswer 1 1) ∧
      ((freshAnswer 1 1).attemptId = 1 → (freshAnswer 1 1).questionId = 1 → ¬(5 : Int) < 0 →
        r2.timeSpent = (freshAnswer 1 1).timeSpent + 5 ∧
        ((freshAnswer 1 1).firstVisitTime = none → r2.visitCount = 1) ∧
        ((freshAnswer 1 1).firstVisitTime ≠ none → "update" = "visit" →
          r2.visitCount = (freshAnswer 1 1).visitCount + 1) ∧
        ((freshAnswer 1 1).firstVisitTime ≠ none → "update" ≠ "visit" →
          r2.visitCount = (freshAnswer 1 1).visitCount)) :=
  (timeTracker_monotonic_visits_validation dbC6 1 1 5 "update" [] 50 (by decide)).1
    (freshAnswer 1 1) (by decide)

end JeeTest

namespace JeeTest

/-- Claim C1: for every question and submitted answer, the scoring loop of
`submitTest` computes exactly the four-outcome contract stated in the claim:
a non-scorable status gives `(null, 0)`; otherwise, in order, an MCQ match
gives `(true, marks)`, an integer match gives `(true, marks)`, any supplied
value gives `(false, negativeMarks)`, and no supplied value gives `(null, 0)`. -/
theorem scoreAnswer_eq_scoreSpecC1 (q : Question) (a : SubmittedAnswer) :
    scoreAnswer q a = scoreSpecC1 q a := by
  rcases q with ⟨qid, qn, co, ci, m, nm⟩
  rcases a with ⟨aqid, so, ia, st⟩
  cases st <;> cases co <;> cases ci <;> cases so <;> cases ia <;>
    simp [scoreAnswer, scoreSpecC1, mcqMatchC1, intMatchC1, suppliedValueC1, truthyStr]

/-- A list of length at most one has at most one member. -/
theorem eq_of_mem_of_length_le_one {α : Type} {l : List α} (h : l.length ≤ 1)
    {a b : α} (ha : a ∈ l) (hb : b ∈ l) : a = b := by
  cases l with
  | nil => cases ha
  | cons x tl =>
    cases tl with
    | nil =>
      rw [List.mem_singleton] at ha hb
      rw [ha, hb]
    | cons y tl2 => simp at h

/-- Mapping with a predicate-preserving function keeps the filter length. -/
theorem filter_length_map_eq {α : Type} (p : α → Bool) (f : α → α)
    (hf : ∀ a, p (f a) = p a) (l : List α) :
    ((l.map f).filter p).length = (l.filter p).length := by
  induction l with
  | nil => rfl
  | cons a tl ih =>
    cases hpa : p a <;> simp [List.filter_cons, hf, hpa, ih]

/-- Filtering by a conjunction is no longer than filtering by one conjunct. -/
theorem length_filter_and_le {α : Type} (p q : α → Bool) (l : List α) :
    (l.filter (fun a => p a && q a)).length ≤ (l.filter p).length := by
  have h2 : (l.filter p).filter q = l.filter (fun a => q a && p a) :=
    List.filter_filter p l
  have h3 : l.filter (fun a => p a && q a) = l.filter (fun a => q a && p a) :=
    List.filter_congr (fun a _ => Bool.and_comm _ _)
  rw [h3, ← h2]
  exact List.length_filter_le _ _

/-- At most one attempt row per `(testId, candidateName)` pair. -/
def AtMostOnePair (db : DB) : Prop :=
  ∀ testId name, (db.attempts.filter (pairMatch testId name)).length ≤ 1

/-- Conditionally rewriting fields other than `testId` and `candidateName`
keeps the pair predicate. -/
theorem pairMatch_conditional_update (t : Nat) (n : String)
    (f : TestAttempt → TestAttempt)
    (hf : ∀ a, (f a).testId = a.testId ∧ (f a).candidateName = a.candidateName)
    (a : TestAttempt) : pairMatch t n (f a) = pairMatch t n a := by
  simp [pairMatch, (hf a).1, (hf a).2]

/-- `AtMostOnePair` survives any map that keeps the pair fields. -/
theorem atMostOnePair_map {db : DB} (h : AtMostOnePair db)
    (f : TestAttempt → TestAttempt)
    (hf : ∀ a, (f a).testId = a.testId ∧ (f a).candidateName = a.candidateName) :
    ∀ testId name, ((db.attempts.map f).filter (pairMatch testId name)).length ≤ 1 := by
  intro t n
  rw [filter_length_map_eq (pairMatch t n) f (pairMatch_conditional_update t n f hf)]
  exact h t n

/-- The attempt list of a submit result: unchanged, or the completion map. -/
theorem submitTest_attempts_shape (db : DB) (attemptId : Nat)
    (payload : List SubmittedAnswer) (now : Nat) :
    (submitTest db attemptId payload now).2.attempts = db.attempts ∨
    ∃ tm : Int, (submitTest db attemptId payload now).2.attempts = db.attempts.map (fun a =>
      if a.id == attemptId then
        { a with isCompleted := true, totalMarks := tm, endTime := some now }
      else a) := by
  unfold submitTest
  cases hf : db.attempts.find? (fun a => a.id == attemptId) with
  | none => exact Or.inl rfl
  | some att =>
    dsimp only
    cases ht : db.tests.find? (fun t => t.id == att.testId) with
    | none => exact Or.inl rfl
    | some test =>
      dsimp only
      by_cases hall : scoredAllExist db attemptId (buildScored test payload) = true
      · rw [if_pos hall]
        exact Or.inr ⟨totalOf (buildScored test payload), rfl⟩
      · rw [if_neg hall]
        exact Or.inl rfl

/-- `submitTest` preserves the pair invariant. -/
theorem submitTest_preserves_pairs {db : DB} (h : AtMostOnePair db)
    (attemptId : Nat) (payload : List SubmittedAnswer) (now : Nat) :
    AtMostOnePair (submitTest db attemptId payload now).2 := by
  intro t n
  rcases submitTest_attempts_shape db attemptId payload now with hsh | ⟨tm, hsh⟩
  · rw [hsh]
    exact h t n
  · rw [hsh]
    refine atMostOnePair_map h _ (fun a => ?_) t n
    by_cases hc : (a.id == attemptId) = true <;> simp [hc]

/-- `bumpWarning` preserves the pair invariant. -/
theorem bumpWarning_preserves_pairs {db : DB} (h : AtMostOnePair db) (attemptId : Nat) :
    AtMostOnePair (bumpWarning db attemptId) := by
  intro t n
  refine atMostOnePair_map h _ (fun a => ?_) t n
  by_cases hc : (a.id == attemptId) = true <;> simp [hc]

/-- `updateWarningCount` preserves the pair invariant. -/
theorem updateWarningCount_preserves_pairs {db : DB} (h : AtMostOnePair db)
    (attemptId now : Nat) :
    AtMostOnePair (updateWarningCount db attemptId now).2 := by
  unfold updateWarningCount
  cases hf : db.attempts.find? (fun a => a.id == attemptId) with
  | none => exact h
  | some att =>
    dsimp only
    by_cases hth : att.warningCount + 1 ≥ 5
    · rw [if_pos hth]
      exact submitTest_preserves_pairs (bumpWarning_preserves_pairs h attemptId) attemptId _ now
    · rw [if_neg hth]
      exact bumpWarning_preserves_pairs h attemptId

/-- `requestResume` preserves the pair invariant. -/
theorem requestResume_preserves_pairs {db : DB} (h : AtMostOnePair db)
    (attemptId now : Nat) :
    AtMostOnePair (requestResume db attemptId now).2 := by
  unfold requestResume
  by_cases hc : (db.attempts.any (fun a => a.id == attemptId)) = true
  · rw [if_pos hc]
    intro t n
    refine atMostOnePair_map h _ (fun a => ?_) t n
    by_cases hc2 : (a.id == attemptId) = true <;> simp [hc2]
  · rw [if_neg hc]
    exact h

/-- `allowResume` preserves the pair invariant. -/
theorem allowResume_preserves_pairs {db : DB} (h : AtMostOnePair db) (attemptId : Nat) :
    AtMostOnePair (allowResume db attemptId).2 := by
  unfold allowResume
  by_cases hc : (db.attempts.any (fun a => a.id == attemptId)) = true
  · rw [if_pos hc]
    intro t n
    refine atMostOnePair_map h _ (fun a => ?_) t n
    by_cases hc2 : (a.id == attemptId) = true <;> simp [hc2]
  · rw [if_neg hc]
    exact h

/-- `updateQuestionTime` never touches the attempt list. -/
theorem updateQuestionTime_attempts (db : DB) (attemptId questionId : Nat) (t : Int)
    (action : String) (now : Nat) :
    (updateQuestionTime db attemptId questionId t action now).2.attempts = db.attempts := by
  unfold updateQuestionTime
  by_cases hneg : t < 0
  · rw [if_pos hneg]
  · rw [if_neg hneg]
    cases hf : db.answers.find? (rowKey attemptId questionId) <;> rfl

/-- `startTestAttempt` preserves the pair invariant: an error path leaves the
store alone, and a creation first removes the pair's prior attempt. -/
theorem startTestAttempt_preserves_pairs {db : DB} (h : AtMostOnePair db)
    (testId : Nat) (name : String) (img : Option String) (newId now : Nat) :
    AtMostOnePair (startTestAttempt db testId name img newId now).2 := by
  unfold startTestAttempt
  cases htest : db.tests.find? (fun t => t.id == testId) with
  | none => exact h
  | some test =>
    dsimp only
    by_cases hlive : test.isLive = false
    · rw [if_pos hlive]
      exact h
    · rw [if_neg hlive]
      cases hfind : db.attempts.find? (pairMatch testId name) with
      | none =>
        dsimp only
        intro t n
        rw [List.filter_append]
        by_cases hp : pairMatch t n (createdAttempt testId name img newId now) = true
        · have hpair : (testId == t && name == n) = true := hp
          simp only [Bool.and_eq_true, beq_iff_eq] at hpair
          obtain ⟨rfl, rfl⟩ := hpair
          have hnil : db.attempts.filter (pairMatch testId name) = [] :=
            List.filter_eq_nil_iff.mpr (fun a ha => by
              simpa using List.find?_eq_none.mp hfind a ha)
          rw [hnil]
          simp [hp]
        · have hnil2 : [createdAttempt testId name img newId now].filter (pairMatch t n) = [] := by
            simp [hp]
          rw [hnil2]
          simpa using h t n
      | some ex =>
        have hexmem := List.mem_of_find?_eq_some hfind
        have hexp : pairMatch testId name ex = true := List.find?_some hfind
        dsimp only
        by_cases hcomp : ex.isCompleted = true
        · rw [if_pos hcomp]
          exact h
        · rw [if_neg hcomp]
          by_cases hres : (ex.needsResume && !ex.canResume) = true
          · rw [if_pos hres]
            exact h
          · rw [if_neg hres]
            intro t n
            rw [List.filter_append]
            by_cases hp : pairMatch t n (createdAttempt testId name img newId now) = true
            · have hpair : (testId == t && name == n) = true := hp
              simp only [Bool.and_eq_true, beq_iff_eq] at hpair
              obtain ⟨rfl, rfl⟩ := hpair
              have hnil : (db.attempts.filter (fun a => a.id != ex.id)).filter
                  (pairMatch testId name) = [] := by
                apply List.filter_eq_nil_iff.mpr
                intro a ha hpa
                obtain ⟨hamem, hane⟩ := List.mem_filter.mp ha
                have haex : a = ex :=
                  eq_of_mem_of_length_le_one (h testId name)
                    (List.mem_filter.mpr ⟨hamem, hpa⟩)
                    (List.mem_filter.mpr ⟨hexmem, hexp⟩)
                subst haex
                simp at hane
              rw [hnil]
              simp [hp]
            · have hnil2 : [createdAttempt testId name img newId now].filter
                  (pairMatch t n) = [] := by
                simp [hp]
              rw [hnil2]
              have hcomm : (db.attempts.filter (fun a => a.id != ex.id)).filter
                  (pairMatch t n)
                  = db.attempts.filter (fun a => pairMatch t n a && (a.id != ex.id)) := by
                rw [List.filter_filter]
              rw [hcomm]
              simpa using le_trans (length_filter_and_le (pairMatch t n) _ db.attempts) (h t n)

/-- Every engine operation preserves the pair invariant. -/
theorem step_preserves_pairs {db db2 : DB} (h : AtMostOnePair db) (hstep : Step db db2) :
    AtMostOnePair db2 := by
  cases hstep with
  | start testId name img newId now => exact startTestAttempt_preserves_pairs h testId name img newId now
  | sync attemptId payload => exact h
  | submit attemptId payload now => exact submitTest_preserves_pairs h attemptId payload now
  | warn attemptId now => exact updateWarningCount_preserves_pairs h attemptId now
  | reqResume attemptId now => exact requestResume_preserves_pairs h attemptId now
  | allow attemptId => exact allowResume_preserves_pairs h attemptId
  | qTime attemptId questionId t action now =>
    intro t2 n
    rw [updateQuestionTime_attempts]
    exact h t2 n
  | sTime attemptId qt now => exact h

/-- The pair invariant holds in every state reachable from a store with no
attempts. -/
theorem reachable_atMostOnePair {db0 db : DB} (h0 : db0.attempts = [])
    (hr : Reachable db0 db) : AtMostOnePair db := by
  induction hr with
  | refl => intro t n; simp [h0]
  | tail _ hstep ih => exact step_preserves_pairs ih hstep

/-- Claim C5: in every reachable state at most one incomplete attempt exists
per `(testId, candidateName)` pair, and once a completed attempt exists for a
pair every further start for that pair is rejected without touching the
store. -/
theorem reachable_unique_incomplete_and_completed_blocks (db0 db : DB)
    (h0 : db0.attempts = []) (hr : Reachable db0 db) :
    (∀ testId name,
      (db.attempts.filter (fun a => pairMatch testId name a && !a.isCompleted)).length ≤ 1) ∧
    (∀ testId name, ∀ a ∈ db.attempts, pairMatch testId name a = true → a.isCompleted = true →
      ∀ img newId now,
        (startTestAttempt db testId name img newId now).1 ≠ .created newId ∧
        (startTestAttempt db testId name img newId now).2 = db) := by
  have hinv := reachable_atMostOnePair h0 hr
  constructor
  · intro t n
    exact le_trans (length_filter_and_le (pairMatch t n) _ db.attempts) (hinv t n)
  · intro t n a hmem hp hcomp img newId now
    have hfind : db.attempts.find? (pairMatch t n) = some a :=
      find?_of_mem_unique
        (fun x hx y hy hpx hpy =>
          eq_of_mem_of_length_le_one (hinv t n)
            (List.mem_filter.mpr ⟨hx, hpx⟩) (List.mem_filter.mpr ⟨hy, hpy⟩))
        hmem hp
    unfold startTestAttempt
    cases htest : db.tests.find? (fun t2 => t2.id == t) with
    | none => exact ⟨by simp, rfl⟩
    | some test =>
      dsimp only
      by_cases hlive : test.isLive = false
      · rw [if_pos hlive]
        exact ⟨by simp, rfl⟩
      · rw [if_neg hlive, hfind]
        dsimp only
        rw [if_pos hcomp]
        exact ⟨by simp, rfl⟩

/-- Witness for C5: after one start operation on an empty store the invariant
holds concretely and the pair has exactly one incomplete attempt. -/
theorem reachable_unique_incomplete_witness :
    ((startTestAttempt dbStart 1 "bob" none 7 5).2.attempts.filter
      (fun a => pairMatch 1 "bob" a && !a.isCompleted)).length ≤ 1 :=
  (reachable_unique_incomplete_and_completed_blocks dbStart
      (startTestAttempt dbStart 1 "bob" none 7 5).2 (by decide)
      (Relation.ReflTransGen.single (Step.start dbStart 1 "bob" none 7 5))).1 1 "bob"

/-- The answer write-back of `submitTest` acts on every row independently. -/
theorem foldl_applyScored_eq_map (aid : Nat) :
    ∀ (scored : List ScoredAnswer) (xs : List Answer),
      scored.foldl (applyScored aid) xs = xs.map (fun r => scored.foldl (rowStep aid) r) := by
  intro scored
  induction scored with
  | nil =>
    intro xs
    simp
  | cons u rest ih =>
    intro xs
    simp only [List.foldl_cons]
    rw [show applyScored aid xs u = xs.map (fun r => rowStep aid r u) from rfl,
      ih (xs.map (fun r => rowStep aid r u)), List.map_map]
    rfl

/-- One scored update keeps a row's key. -/
theorem rowStep_key (aid : Nat) (r : Answer) (u : ScoredAnswer) :
    (rowStep aid r u).attemptId = r.attemptId ∧ (rowStep aid r u).questionId = r.questionId := by
  unfold rowStep
  by_cases hk : rowKey aid u.questionId r = true <;> simp [hk, scoredUpd]

/-- A scored fold keeps a row's key. -/
theorem rowFold_key (aid : Nat) (scored : List ScoredAnswer) (r : Answer) :
    (scored.foldl (rowStep aid) r).attemptId = r.attemptId ∧
    (scored.foldl (rowStep aid) r).questionId = r.questionId := by
  induction scored generalizing r with
  | nil => exact ⟨rfl, rfl⟩
  | cons u rest ih =>
    simp only [List.foldl_cons]
    obtain ⟨h1, h2⟩ := ih (rowStep aid r u)
    obtain ⟨h3, h4⟩ := rowStep_key aid r u
    exact ⟨h1.trans h3, h2.trans h4⟩

/-- A scored fold leaves a row alone when no entry targets its key. -/
theorem rowFold_id (aid : Nat) (scored : List ScoredAnswer) (r : Answer)
    (h : ∀ u ∈ scored, rowKey aid u.questionId r = false) :
    scored.foldl (rowStep aid) r = r := by
  induction scored with
  | nil => rfl
  | cons u rest ih =>
    simp only [List.foldl_cons]
    have hstep : rowStep aid r u = r := by
      unfold rowStep
      rw [h u (by simp)]
      rfl
    rw [hstep]
    exact ih (fun u2 hu2 => h u2 (by simp [hu2]))

/-- On a row of the attempt, a duplicate-free scored fold writes exactly the
marks of the entry found for the row's question, and nothing otherwise. -/
theorem rowFold_found (aid : Nat) (scored : List ScoredAnswer) (r : Answer)
    (hnodup : (scored.map (fun u => u.questionId)).Nodup)
    (hatt : (r.attemptId == aid) = true) :
    scored.foldl (rowStep aid) r =
      match scored.find? (fun u => u.questionId == r.questionId) with
      | some u => scoredUpd u r
      | none => r := by
  induction scored with
  | nil => rfl
  | cons u rest ih =>
    simp only [List.map_cons, List.nodup_cons] at hnodup
    obtain ⟨hu_not, hrest⟩ := hnodup
    by_cases hq : (u.questionId == r.questionId) = true
    · have hkey : rowKey aid u.questionId r = true := by
        simp only [beq_iff_eq] at hq hatt
        simp [rowKey, hq, hatt]
      simp only [List.foldl_cons]
      have hstep : rowStep aid r u = scoredUpd u r := by
        unfold rowStep
        rw [hkey]
        rfl
      rw [hstep]
      have hid : rest.foldl (rowStep aid) (scoredUpd u r) = scoredUpd u r := by
        apply rowFold_id
        intro u2 hu2
        have hq2 : u2.questionId ≠ u.questionId := by
          intro hcon
          exact hu_not (List.mem_map.mpr ⟨u2, hu2, hcon⟩)
        simp only [beq_iff_eq] at hq
        have hqr : (scoredUpd u r).questionId = r.questionId := rfl
        have hqb : ((scoredUpd u r).questionId == u2.questionId) = false := by
          rw [hqr]
          simp only [beq_eq_false_iff_ne, ne_eq]
          intro hcon
          exact hq2 (hq.trans hcon).symm
        simp [rowKey, hqb]
      have hfind : List.find? (fun u2 => u2.questionId == r.questionId) (u :: rest)
          = some u :=
        List.find?_cons_of_pos _ hq
      rw [hid, hfind]
    · simp only [List.foldl_cons]
      have hstep : rowStep aid r u = r := by
        unfold rowStep
        have hkf : rowKey aid u.questionId r = false := by
          have : (r.questionId == u.questionId) = false := by
            simp only [beq_eq_false_iff_ne, ne_eq]
            intro hcon
            simp only [beq_iff_eq] at hq
            exact hq hcon.symm
          simp [rowKey, this]
        rw [hkf]
        rfl
      have hfindn : List.find? (fun u2 => u2.questionId == r.questionId) (u :: rest)
          = List.find? (fun u2 => u2.questionId == r.questionId) rest :=
        List.find?_cons_of_neg _ (by simpa using hq)
      rw [hstep, hfindn]
      exact ih hrest

/-- Entries mapped to zero off the filter contribute nothing to the sum. -/
theorem sum_map_filter_zero {α : Type} (g : α → Int) (p : α → Bool) (l : List α)
    (h : ∀ x ∈ l, p x = false → g x = 0) :
    (l.map g).sum = ((l.filter p).map g).sum := by
  induction l with
  | nil => rfl
  | cons x tl ih =>
    have ih2 := ih (fun y hy => h y (by simp [hy]))
    cases hp : p x with
    | true => simp [List.filter_cons, hp, ih2]
    | false =>
      simp [List.filter_cons, hp, ih2, h x (by simp) hp]

/-- Summing the per-question marks over a duplicate-free batch's own questions
recovers the batch total. -/
theorem sum_scoredMarkAt_self (scored : List ScoredAnswer)
    (hnodup : (scored.map (fun u => u.questionId)).Nodup) :
    ((scored.map (fun u => u.questionId)).map (scoredMarkAt scored)).sum =
      (scored.map (fun u => u.marksAwarded)).sum := by
  induction scored with
  | nil => rfl
  | cons u rest ih =>
    simp only [List.map_cons, List.nodup_cons] at hnodup ⊢
    obtain ⟨hu_not, hrest⟩ := hnodup
    simp only [List.sum_cons]
    have h1 : scoredMarkAt (u :: rest) u.questionId = u.marksAwarded := by
      unfold scoredMarkAt
      rw [List.find?_cons_of_pos _ (by simp)]
    have h2 : (rest.map (fun u2 => u2.questionId)).map (scoredMarkAt (u :: rest))
        = (rest.map (fun u2 => u2.questionId)).map (scoredMarkAt rest) := by
      apply List.map_congr_left
      intro q hq
      unfold scoredMarkAt
      rw [List.find?_cons_of_neg]
      intro hcon
      rw [beq_iff_eq] at hcon
      exact hu_not (by rw [hcon]; exact hq)
    rw [h1, h2, ih hrest]

/-- Under its success conditions `submitTest` returns the success store. -/
theorem submitTest_success_eq {db : DB} {attemptId : Nat}
    {payload : List SubmittedAnswer} {now : Nat} {att : TestAttempt} {test : Test}
    (hatt : db.attempts.find? (fun a => a.id == attemptId) = some att)
    (htest : db.tests.find? (fun t => t.id == att.testId) = some test)
    (hall : scoredAllExist db attemptId (buildScored test payload) = true) :
    submitTest db attemptId payload now =
      (.ok, submitSuccessDB db attemptId att.testId (buildScored test payload) now) := by
  unfold submitTest
  rw [hatt]
  dsimp only
  rw [htest]
  dsimp only
  rw [if_pos hall]

/-- Counterexample to claim C3 as stated: a submit payload that lists the same
question twice completes successfully, but the persisted `totalMarks` (8)
counts the duplicate while the attempt's stored answer rows sum to 4. -/
theorem submit_totalMarks_sum_counterexample :
    (submitTest dbC3 1 payloadDup 100).1 = .ok ∧
    ((submitTest dbC3 1 payloadDup 100).2.attempts.find? (fun a => a.id == 1)).map
        (fun a => a.totalMarks) = some 8 ∧
    (((submitTest dbC3 1 payloadDup 100).2.answers.filter
        (fun r => r.attemptId == 1)).map (fun r => r.marksAwarded)).sum = 4 := by
  decide

/-- Claim C3 amended: a fully successful submit persists `isCompleted=true`,
`endTime=now` and flips the owning test's `isLive` off, and `totalMarks` equals
the sum of the computed `marksAwarded` of the scored entries; this sum equals
the sum of `marksAwarded` over the attempt's stored answer rows provided the
submitted questionIds are duplicate-free and every stored row the submission
does not touch is still unscored (`marksAwarded = 0`), which holds for the
intended one-full-submission lifecycle. -/
theorem submit_completion_and_totalMarks
    (db : DB) (attemptId : Nat) (payload : List SubmittedAnswer) (now : Nat)
    (att : TestAttempt) (test : Test)
    (hatt : db.attempts.find? (fun a => a.id == attemptId) = some att)
    (htest : db.tests.find? (fun t => t.id == att.testId) = some test)
    (hall : scoredAllExist db attemptId (buildScored test payload) = true)
    (hnodup : ((buildScored test payload).map (fun u => u.questionId)).Nodup)
    (hrows : ((db.answers.filter (fun r => r.attemptId == attemptId)).map
        (fun r => r.questionId)).Nodup)
    (hzero : ∀ r ∈ db.answers, (r.attemptId == attemptId) = true →
        (buildScored test payload).find? (fun u => u.questionId == r.questionId) = none →
        r.marksAwarded = 0) :
    (submitTest db attemptId payload now).1 = .ok ∧
    (∀ a2 ∈ (submitTest db attemptId payload now).2.attempts, a2.id = attemptId →
      a2.isCompleted = true ∧ a2.endTime = some now ∧
      a2.totalMarks = (((submitTest db attemptId payload now).2.answers.filter
          (fun r => r.attemptId == attemptId)).map (fun r => r.marksAwarded)).sum) ∧
    (∀ t2 ∈ (submitTest db attemptId payload now).2.tests, t2.id = att.testId →
      t2.isLive = false) := by
  have hres := @submitTest_success_eq db attemptId payload now att test hatt htest hall
  rw [hres]
  have hchain :
      (((submitSuccessDB db attemptId att.testId (buildScored test payload) now).answers.filter
          (fun r => r.attemptId == attemptId)).map (fun r => r.marksAwarded)).sum
        = totalOf (buildScored test payload) := by
    have hasw : (submitSuccessDB db attemptId att.testId (buildScored test payload) now).answers
        = db.answers.map (fun r => (buildScored test payload).foldl (rowStep attemptId) r) :=
      foldl_applyScored_eq_map attemptId (buildScored test payload) db.answers
    rw [hasw, List.filter_map]
    have hfc : db.answers.filter ((fun r => r.attemptId == attemptId) ∘
        (fun r => (buildScored test payload).foldl (rowStep attemptId) r))
        = db.answers.filter (fun r => r.attemptId == attemptId) :=
      List.filter_congr (fun r _ => by
        simp [Function.comp, (rowFold_key attemptId (buildScored test payload) r).1])
    rw [hfc, List.map_map]
    have hFr : (db.answers.filter (fun r => r.attemptId == attemptId)).map
        ((fun r => r.marksAwarded) ∘ (fun r => (buildScored test payload).foldl
          (rowStep attemptId) r))
        = (db.answers.filter (fun r => r.attemptId == attemptId)).map
          (fun r => scoredMarkAt (buildScored test payload) r.questionId) := by
      apply List.map_congr_left
      intro r hr
      obtain ⟨hmem, hattr⟩ := List.mem_filter.mp hr
      simp only [Function.comp]
      rw [rowFold_found attemptId (buildScored test payload) r hnodup hattr]
      unfold scoredMarkAt
      cases hf : (buildScored test payload).find? (fun u => u.questionId == r.questionId) with
      | some u => rfl
      | none => exact hzero r hmem hattr hf
    rw [hFr]
    have hmm : (db.answers.filter (fun r => r.attemptId == attemptId)).map
        (fun r => scoredMarkAt (buildScored test payload) r.questionId)
        = ((db.answers.filter (fun r => r.attemptId == attemptId)).map
            (fun r => r.questionId)).map (scoredMarkAt (buildScored test payload)) := by
      rw [List.map_map]
      rfl
    rw [hmm]
    have hsplit := sum_map_filter_zero (scoredMarkAt (buildScored test payload))
      (fun q => (buildScored test payload).any (fun u => u.questionId == q))
      ((db.answers.filter (fun r => r.attemptId == attemptId)).map (fun r => r.questionId))
      (fun q _ hq => by
        unfold scoredMarkAt
        have : (buildScored test payload).find? (fun u => u.questionId == q) = none := by
          rw [List.find?_eq_none]
          intro u hu hcon
          have hany : (buildScored test payload).any (fun u2 => u2.questionId == q) = true :=
            List.any_eq_true.mpr ⟨u, hu, hcon⟩
          have hq2 : ((buildScored test payload).any fun u2 => u2.questionId == q) = false := hq
          rw [hany] at hq2
          cases hq2
        rw [this])
    rw [hsplit]
    have hperm : List.Perm
        (((db.answers.filter (fun r => r.attemptId == attemptId)).map
            (fun r => r.questionId)).filter
          (fun q => (buildScored test payload).any (fun u => u.questionId == q)))
        ((buildScored test payload).map (fun u => u.questionId)) := by
      apply (List.perm_ext_iff_of_nodup (hrows.filter _) hnodup).mpr
      intro q
      constructor
      · intro hq
        obtain ⟨_, hany⟩ := List.mem_filter.mp hq
        obtain ⟨u, hu, hequ⟩ := List.any_eq_true.mp hany
        rw [beq_iff_eq] at hequ
        exact List.mem_map.mpr ⟨u, hu, hequ⟩
      · intro hq
        obtain ⟨u, hu, hequ⟩ := List.mem_map.mp hq
        apply List.mem_filter.mpr
        constructor
        · have hanyrow : db.answers.any (rowKey attemptId u.questionId) = true := by
            have := List.all_eq_true.mp hall u hu
            simpa using this
          obtain ⟨r0, hr0, hkey⟩ := List.any_eq_true.mp hanyrow
          simp only [rowKey, Bool.and_eq_true, beq_iff_eq] at hkey
          apply List.mem_map.mpr
          refine ⟨r0, List.mem_filter.mpr ⟨hr0, by simp [hkey.1]⟩, ?_⟩
          rw [hkey.2, hequ]
        · exact List.any_eq_true.mpr ⟨u, hu, by simp [hequ]⟩
    rw [(hperm.map (scoredMarkAt (buildScored test payload))).sum_eq]
    exact sum_scoredMarkAt_self (buildScored test payload) hnodup
  refine ⟨rfl, ?_, ?_⟩
  · intro a2 hmem hid
    simp only [submitSuccessDB] at hmem
    obtain ⟨a, _, rfl⟩ := List.mem_map.mp hmem
    by_cases hc : (a.id == attemptId) = true
    · rw [if_pos hc]
      refine ⟨rfl, rfl, ?_⟩
      show totalOf (buildScored test payload) = _
      rw [hchain]
    · rw [if_neg (by simp [hc])] at hid ⊢
      rw [beq_iff_eq] at hc
      exact absurd hid hc
  · intro t2 hmem hid
    simp only [submitSuccessDB] at hmem
    obtain ⟨t0, _, rfl⟩ := List.mem_map.mp hmem
    by_cases hc : (t0.id == att.testId) = true
    · rw [if_pos hc]
    · rw [if_neg (by simp [hc])] at hid ⊢
      rw [beq_iff_eq] at hc
      exact absurd hid hc

/-- Witness for the amended C3 theorem at a concrete store: a single wrong
answer completes the attempt with `totalMarks = -1`, equal to the sum over the
stored rows. -/
theorem submit_completion_and_totalMarks_witness :
    (submitTest dbC3 1 payloadWrongA 100).1 = .ok ∧
    ({ attFix with isCompleted := true, totalMarks := -1, endTime := some 100 }
        : TestAttempt).totalMarks
      = (((submitTest dbC3 1 payloadWrongA 100).2.answers.filter
          (fun r => r.attemptId == 1)).map (fun r => r.marksAwarded)).sum := by
  have h := submit_completion_and_totalMarks dbC3 1 payloadWrongA 100 attFix testFix1
    (by decide) (by decide) (by decide) (by decide) (by decide) (by decide)
  exact ⟨h.1, (h.2.1 { attFix with isCompleted := true, totalMarks := -1, endTime := some 100 }
    (by decide) (by decide)).2.2⟩

end JeeTest
